import Mathlib

/-!
Verification of the gubernator build-result aggregation engine
(`gubernator/view_build.py`, `gubernator/view_pr.py`) against its
natural-language specification.

Shallow embedding conventions:
* Python byte strings (documents read from the blob store) are `List Nat`
  (byte values); Python text strings are Lean `String`.
* External collaborators are parameters: blob-store reads are
  `String → Option String` / `Option (List Nat)` (`none` = absent),
  `json.loads` and `defusedxml.ElementTree.fromstring` are function
  parameters (`Except` models a raised exception).
* Python exceptions escaping a function are modelled by `Except String`.
* Machine floats (`float(...)`) are modelled by exact rationals via a
  decimal parser; none of the verified properties compare durations
  numerically, so rounding is irrelevant.
* Python's stable in-place `list.sort` is modelled by
  `List.insertionSort`: a stable sort's output is uniquely determined by
  the comparison, so any stable sort is extensionally `list.sort`.
-/

/-- Parsed JSON values, the results of `json.loads` on marker files. -/
inductive Json where
  | null
  | bool (b : Bool)
  | num (q : ℚ)
  | str (s : String)
  | arr (elems : List Json)
  | obj (fields : List (String × Json))

/-- Parsed XML element, the tagged tree produced by `ET.fromstring`:
tag name, attribute dictionary, text body, child elements. -/
inductive Xml where
  | elem (tag : String) (attrib : List (String × String)) (text : Option String)
      (children : List Xml)

def Xml.tag : Xml → String
  | .elem t _ _ _ => t

def Xml.attrib : Xml → List (String × String)
  | .elem _ a _ _ => a

def Xml.text : Xml → Option String
  | .elem _ _ tx _ => tx

def Xml.children : Xml → List Xml
  | .elem _ _ _ cs => cs

/-- Python truthiness of an optional byte string (absent or empty is falsy). -/
def truthyB : Option (List Nat) → Bool
  | none => false
  | some l => !l.isEmpty

/-- Python truthiness of an optional text string (absent or empty is falsy). -/
def truthyS : Option String → Bool
  | none => false
  | some s => !s.isEmpty

/-- Byte-wise lexicographic comparison (Python 2 `str` comparison). -/
def lexLeN : List Nat → List Nat → Bool
  | [], _ => true
  | _ :: _, [] => false
  | a :: as, b :: bs =>
    if a < b then true
    else if b < a then false
    else lexLeN as bs

/-- String comparison through character codes (Python 2 `str <=`). -/
def strLe (a b : String) : Bool :=
  lexLeN (a.toList.map Char.toNat) (b.toList.map Char.toNat)

/-- Value of a list of decimal digit characters. -/
def digitsVal (l : List Char) : Nat :=
  l.foldl (fun acc c => acc * 10 + (c.toNat - '0'.toNat)) 0

/-- Model of Python `float(s)` on plain decimal literals:
optional surrounding whitespace, optional sign, digits with an optional
fractional part, optional exponent.  `none` models a raised `ValueError`.
(The exotic literals `inf`/`nan` are outside the verified properties.) -/
def pyFloat? (s : String) : Option ℚ :=
  let l0 := ((s.toList.dropWhile (fun c => c.isWhitespace)).reverse.dropWhile
    (fun c => c.isWhitespace)).reverse
  let neg : Bool := match l0 with
    | '-' :: _ => true
    | _ => false
  let l1 : List Char := match l0 with
    | '-' :: rest => rest
    | '+' :: rest => rest
    | _ => l0
  let intDigits := l1.takeWhile (fun c => c.isDigit)
  let l2 := l1.dropWhile (fun c => c.isDigit)
  let fracDigits : List Char := match l2 with
    | '.' :: rest => rest.takeWhile (fun c => c.isDigit)
    | _ => []
  let l3 : List Char := match l2 with
    | '.' :: rest => rest.dropWhile (fun c => c.isDigit)
    | _ => l2
  if intDigits.isEmpty && fracDigits.isEmpty then none
  else
    let mant : ℚ := (digitsVal intDigits : ℚ) +
      (digitsVal fracDigits : ℚ) / ((10 : ℚ) ^ fracDigits.length)
    let signed := if neg then -mant else mant
    match l3 with
    | [] => some signed
    | e :: rest =>
      if e = 'e' || e = 'E' then
        let eneg : Bool := match rest with
          | '-' :: _ => true
          | _ => false
        let edigits : List Char := match rest with
          | '-' :: r => r
          | '+' :: r => r
          | _ => rest
        if edigits.isEmpty || !edigits.all (fun c => c.isDigit) then none
        else
          let ex := digitsVal edigits
          some (if eneg then signed / (10 : ℚ) ^ ex else signed * (10 : ℚ) ^ ex)
      else none

/-- One element of `JUnitParser.failed`:
(name, time, failure text, source filename, joined system output). -/
abbrev FailT := String × ℚ × Option String × String × String

/-- The mutable state of a `JUnitParser` instance. -/
structure JState where
  skipped : List String
  passed : List String
  failed : List FailT
deriving DecidableEq

/-- A freshly constructed `JUnitParser` (its `__init__`). -/
def initJState : JState := ⟨[], [], []⟩

/-- Model of `'\n'.join(out)`: raises `TypeError` (modelled as `none`)
when a collected text body is Python `None`. -/
def joinTexts (l : List (Option String)) : Option String :=
  match l with
  | [] => some ""
  | _ =>
    if l.all (·.isSome) then
      some (String.intercalate "\n" (l.map (·.getD "")))
    else none

/-- Embedding of `JUnitParser.handle_test` (view_build.py:48-62).
An `Except.error` models an uncaught Python exception (`KeyError` on a
missing attribute, `ValueError` from `float`, `TypeError` from `join`). -/
def handle_test (child : Xml) (filename : String) (pfx : String) (st : JState) :
    Except String JState :=
  match List.lookup "name" child.attrib with
  | none => .error "KeyError: name"
  | some nm =>
    let name := pfx ++ nm
    if (child.children.find? (fun c => c.tag = "skipped")).isSome then
      .ok { st with skipped := st.skipped ++ [name] }
    else if (child.children.find? (fun c => c.tag = "failure")).isSome then
      match List.lookup "time" child.attrib with
      | none => .error "KeyError: time"
      | some t =>
        match pyFloat? t with
        | none => .error "ValueError: float"
        | some time =>
          let out := (child.children.filter (fun c => c.tag = "system-out")).map Xml.text ++
            (child.children.filter (fun c => c.tag = "system-err")).map Xml.text
          match joinTexts out with
          | none => .error "TypeError: join"
          | some outs =>
            .ok { st with failed := st.failed ++
              ((child.children.filter (fun c => c.tag = "failure")).map
                (fun p => (name, time, p.text, filename, outs))) }
    else
      .ok { st with passed := st.passed ++ [name] }

/-- The loop body of `JUnitParser.handle_suite` (view_build.py:37-46):
iterate over the children of a suite whose attribute dictionary is `pa`.
Note that the recursive call for a nested `testsuite` passes the child's
own attributes and no accumulated name parts. -/
def walk (fname : String) : List (String × String) → List Xml → JState →
    Except String JState
  | _, [], st => .ok st
  | pa, c :: rest, st =>
    match c with
    | .elem tag ca txt ccs =>
      if tag = "testsuite" then
        match walk fname ca ccs st with
        | .ok st1 => walk fname pa rest st1
        | .error e => .error e
      else if tag = "testcase" then
        let pfx :=
          match List.lookup "name" pa with
          | some n => n ++ " "
          | none => ""
        match handle_test (.elem tag ca txt ccs) fname pfx st with
        | .ok st1 => walk fname pa rest st1
        | .error e => .error e
      else walk fname pa rest st
termination_by _ cs _ => sizeOf cs
decreasing_by all_goals (simp_wf <;> omega)

/-- Embedding of `JUnitParser.handle_suite` on one suite element. -/
def handle_suite (t : Xml) (fname : String) (st : JState) : Except String JState :=
  match t with
  | .elem _ a _ cs => walk fname a cs st

/-- The loop `for testsuite in tree: self.handle_suite(testsuite, filename)`
of `parse_xml` for a `testsuites` root. -/
def suitesLoop (fname : String) : List Xml → JState → Except String JState
  | [], st => .ok st
  | c :: rest, st =>
    match handle_suite c fname st with
    | .ok st1 => suitesLoop fname rest st1
    | .error e => .error e

/-- Tag dispatch of `parse_xml` after a successful `ET.fromstring`
(view_build.py:77-83); an unexpected root tag only logs. -/
def parse_tree (t : Xml) (fname : String) (st : JState) : Except String JState :=
  if t.tag = "testsuite" then handle_suite t fname st
  else if t.tag = "testsuites" then suitesLoop fname t.children st
  else .ok st

/-- Is this byte replaced by the sanitizing pass?  The pattern is
`[\x00\x80-\xFF]`. -/
def badByte (b : Nat) : Bool := b == 0 || (0x80 ≤ b && b ≤ 0xFF)

/-- Worker for `sanitize`; `inRun` records whether the previous byte was
part of a run already replaced by a single placeholder. -/
def sanitizeAux : Bool → List Nat → List Nat
  | _, [] => []
  | inRun, b :: rest =>
    if badByte b then
      if inRun then sanitizeAux true rest
      else 0x3F :: sanitizeAux true rest
    else b :: sanitizeAux false rest

/-- Embedding of `re.sub(r'[\x00\x80-\xFF]+', '?', xml)`: each maximal
run of NUL / high bytes becomes a single `'?'` (byte 0x3F). -/
def sanitize (l : List Nat) : List Nat := sanitizeAux false l

/-- Embedding of `JUnitParser.parse_xml` (view_build.py:64-83).
`fs` is the external `ET.fromstring`; `xml` is the raw document
(`none` models Python `None`). -/
def parse_xml (fs : List Nat → Except String Xml) (xml : Option (List Nat))
    (fname : String) (st : JState) : Except String JState :=
  if !truthyB xml then .ok st
  else
    match fs (xml.getD []) with
    | .ok tree => parse_tree tree fname st
    | .error _ =>
      match fs (sanitize (xml.getD [])) with
      | .ok tree => parse_tree tree fname st
      | .error e2 =>
        .ok { st with failed := st.failed ++
          [("Gubernator Internal Fatal XML Parse Error", 0, some e2, fname, "")] }

/-- Lexicographic comparison of two `failed` tuples, following Python 2
tuple comparison (with `None` below every string). -/
def optStrLe (a b : Option String) : Bool :=
  match a, b with
  | none, _ => true
  | some _, none => false
  | some x, some y => strLe x y

def optStrEq (a b : Option String) : Bool :=
  match a, b with
  | none, none => true
  | some x, some y => x = y
  | _, _ => false

def failLe (x y : FailT) : Bool :=
  if x.1 ≠ y.1 then strLe x.1 y.1
  else if x.2.1 ≠ y.2.1 then x.2.1 ≤ y.2.1
  else if !optStrEq x.2.2.1 y.2.2.1 then optStrLe x.2.2.1 y.2.2.1
  else if x.2.2.2.1 ≠ y.2.2.2.1 then strLe x.2.2.2.1 y.2.2.2.1
  else strLe x.2.2.2.2 y.2.2.2.2

/-- The three sorted outcome sequences returned by `get_results`. -/
structure SuiteResult where
  failed : List FailT
  skipped : List String
  passed : List String
deriving DecidableEq

/-- Embedding of `JUnitParser.get_results` (view_build.py:85-93):
sort the three accumulated lists in place and return them. -/
def get_results (st : JState) : SuiteResult :=
  { failed := st.failed.insertionSort (fun x y => failLe x y = true)
    skipped := st.skipped.insertionSort (fun x y => strLe x y = true)
    passed := st.passed.insertionSort (fun x y => strLe x y = true) }

/-- One entry of a `gcs_ls` listing (`view_base.gcs_ls` result objects):
the full path and whether it is a directory. -/
structure FStat where
  filename : String
  is_dir : Bool
deriving DecidableEq

/-- Characters after the last `/` (`os.path.basename`). -/
def basenameL (l : List Char) : List Char :=
  (l.reverse.takeWhile (fun c => c ≠ '/')).reverse

def basename (s : String) : String := (basenameL s.toList).asString

/-- Embedding of `os.path.dirname`: everything before the last `/`,
with trailing slashes stripped unless the result is all slashes. -/
def dirname (s : String) : String :=
  let rev := s.toList.reverse
  let headRev := rev.drop (rev.takeWhile (fun c => c ≠ '/')).length
  let head := headRev.reverse
  if head.all (fun c => c = '/') then head.asString
  else (head.reverse.dropWhile (fun c => c = '/')).reverse.asString

/-- Boolean substring test on character lists. -/
def containsSub (needle : List Char) : List Char → Bool
  | [] => needle.isEmpty
  | c :: rest => needle.isPrefixOf (c :: rest) || containsSub needle rest

/-- Python `sub in s` on strings. -/
def pyIn (sub s : String) : Bool := containsSub sub.toList s.toList

/-- Embedding of `re.match(r'junit_.*\.xml', name)`: the name starts with
`junit_` and contains `.xml` somewhere after it (the pattern is not
anchored at the end). -/
def junitMatch (name : String) : Bool :=
  ("junit_".toList).isPrefixOf name.toList &&
    containsSub ".xml".toList (name.toList.drop 6)

/-- Parse the junit artifacts of a build: the loop of `build_details`
over `junit_futures` (view_build.py:141-148).  `artifactLs` is the
`gcs_ls('<build_dir>/artifacts')` result and `artifactRead` the blob
store (the Python dict iteration is modelled in listing order; the final
`get_results` sorting makes the outcome independent of that order). -/
def parse_artifacts (fs : List Nat → Except String Xml) (artifactLs : List FStat)
    (artifactRead : String → Option (List Nat)) : Except String SuiteResult := do
  let junit_paths := (artifactLs.filter (fun f => junitMatch (basename f.filename))).map
    (fun f => f.filename)
  let st ← junit_paths.foldlM (fun st p => parse_xml fs (artifactRead p) p st) initJState
  return get_results st

/-- Embedding of `build_details` (view_build.py:114-149).
`startedRaw` / `finishedRaw` are the blob-store reads of the two marker
files (`none` = absent); `loads` is the external `json.loads` (its
`Except.error` models a raised exception, which `build_details` does not
catch).  The outer `Option` of the result models the bare `return`
(build does not exist). -/
def build_details (loads : String → Except String Json)
    (fs : List Nat → Except String Xml)
    (startedRaw finishedRaw : Option String)
    (artifactLs : List FStat) (artifactRead : String → Option (List Nat)) :
    Except String (Option (Json × Json × SuiteResult)) :=
  let started1 : Option String :=
    if truthyS finishedRaw && !truthyS startedRaw then some "null" else startedRaw
  let cont : Option String → Option String → Except String (Option (Json × Json × SuiteResult)) :=
    fun s1 f1 => do
      let started ← loads (s1.getD "")
      let finished ← loads (f1.getD "")
      let results ← parse_artifacts fs artifactLs artifactRead
      return some (started, finished, results)
  if truthyS started1 && !truthyS finishedRaw then
    cont started1 (some "null")
  else if !(truthyS started1 && truthyS finishedRaw) then
    .ok none
  else
    cont started1 finishedRaw

/-- One element of a per-job PR build history:
`(build id, parsed started.json, parsed finished.json)`. -/
structure PREntry where
  build : String
  started : Option Json
  finished : Option Json

/-- Embedding of `(s or {}).get('timestamp', 0)` (view_pr.py:102) for
started metadata whose `timestamp`, when present, is a JSON number (a
non-numeric value would make Python's unary minus raise, which is
outside the verified properties). -/
def startedTimestamp (s : Option Json) : ℚ :=
  match s with
  | some (.obj fields) =>
    match List.lookup "timestamp" fields with
    | some (.num q) => q
    | _ => 0
  | _ => 0

/-- Embedding of the per-job re-sort in `PRHandler.get`
(view_pr.py:100-102): when any build id is longer than 8 characters the
history is re-sorted by the key `-(s or {}).get('timestamp', 0)`
(Python's stable `list.sort`, modelled by the stable `insertionSort`). -/
def pr_resort (bs : List PREntry) : List PREntry :=
  if bs.any (fun e => 8 < e.build.length) then
    bs.insertionSort (fun x y => (-startedTimestamp x.started ≤ -startedTimestamp y.started))
  else bs

/-- Python truthiness of a parsed JSON value (`not s`). -/
def truthyJson : Option Json → Bool
  | none => false
  | some .null => false
  | some (.bool b) => b
  | some (.num q) => !(q == 0)
  | some (.str s) => !s.isEmpty
  | some (.arr l) => !l.isEmpty
  | some (.obj l) => !l.isEmpty

/-- Embedding of `s.get('timestamp') > cutoff` under Python 2 comparison
(`None > number` is false; a numeric timestamp compares numerically). -/
def tsGtCutoff (s : Option Json) (cutoff : ℚ) : Bool :=
  match s with
  | some (.obj fields) =>
    match List.lookup "timestamp" fields with
    | some (.num q) => cutoff < q
    | _ => false
  | _ => false

/-- Embedding of the `if pr == 'batch'` truncation block of
`PRHandler.get` (view_pr.py:103-110), exactly as written: the block
rebinds `builds` to a fresh empty dict and then iterates over that same
empty dict, so the loop body never runs and the incoming histories are
discarded. -/
def batch_truncate (builds0 : List (String × List PREntry)) (now : ℚ) :
    List (String × List PREntry) :=
  let cutoff := now - 60 * 60 * 24
  let builds : List (String × List PREntry) := []
  builds.foldl
    (fun acc jb =>
      acc ++ [(jb.1, jb.2.filter
        (fun e => !truthyJson e.started || tsGtCutoff e.started cutoff))])
    builds

/-- What the comment `# truncate batch results to last day` and the loop
body say the block should compute: keep, per job, the entries started
within the last day (plus those with no started metadata at all). -/
def batch_truncate_intended (builds0 : List (String × List PREntry)) (now : ℚ) :
    List (String × List PREntry) :=
  let cutoff := now - 60 * 60 * 24
  builds0.map (fun jb => (jb.1, jb.2.filter
    (fun e => !truthyJson e.started || tsGtCutoff e.started cutoff)))

/-- Pad one digit run to width 16 with leading zeros. -/
def padRun (run : List Char) : List Char :=
  List.replicate (16 - run.length) '0' ++ run

/-- Worker for `pad_numbers`, carrying the current digit run. -/
def padNumbersAux : List Char → List Char → List Char
  | run, [] => if run.isEmpty then [] else padRun run
  | run, c :: rest =>
    if c.isDigit then padNumbersAux (run ++ [c]) rest
    else if run.isEmpty then c :: padNumbersAux [] rest
    else padRun run ++ c :: padNumbersAux [] rest

/-- Modelled from the spec: `view_base.pad_numbers` is not under `src/`;
the spec describes the slow-path comparator as a numeric-aware key that
compares embedded digit runs as integers rather than lexicographically
("split into runs of digits and non-digits, compare digit runs
numerically, others lexicographically").  This is realised, as in the
upstream helper, by left-padding every digit run with zeros to a fixed
width of 16, so that byte-wise comparison of the padded strings orders
digit runs by numeric magnitude. -/
def pad_numbers (s : String) : String :=
  (padNumbersAux [] s.toList).asString

/-- Comparison key for the slow-path sort: padded character codes. -/
def padKey (s : String) : List Nat :=
  (pad_numbers s).toList.map Char.toNat

/-- Model of Python `int(s)`: optional surrounding whitespace, optional
sign, one or more decimal digits; `none` models a raised `ValueError`. -/
def pyInt? (s : String) : Option Int :=
  let l0 := ((s.toList.dropWhile (fun c => c.isWhitespace)).reverse.dropWhile
    (fun c => c.isWhitespace)).reverse
  let neg : Bool := match l0 with
    | '-' :: _ => true
    | _ => false
  let ds : List Char := match l0 with
    | '-' :: rest => rest
    | '+' :: rest => rest
    | _ => l0
  if ds.isEmpty || !ds.all (fun c => c.isDigit) then none
  else some (if neg then -(digitsVal ds : Int) else (digitsVal ds : Int))

/-- Embedding of `range(a, b, -1)`: the integers `a, a-1, ..., b+1`. -/
def pyRange (a b : Int) : List Int :=
  (List.range (a - b).toNat).map (fun (i : Nat) => a - (i : Int))

/-- The probing loop of the fast path (view_build.py:285-286): starting
from the pointer value, advance while the next build's marker read is
truthy.  The Python loop is unbounded; `fuel` bounds the number of
probes in the model (the loop would not terminate on a store with
infinitely many consecutive markers). -/
def probe (hit : Int → Bool) : Int → Nat → Int
  | latest, 0 => latest
  | latest, fuel + 1 =>
    if hit (latest + 1) then probe hit (latest + 1) fuel else latest

/-- The `try:` branch of `get_build_numbers` (view_build.py:274-287).
`none` models an escaping `ValueError`/`TypeError` that transfers
control to the `except` (slow-path) branch.  `store` is the async blob
store (`gcs_async.read`). -/
def gbn_try (store : String → Option String) (job_dir before : String)
    (indirect : Bool) (fuel : Nat) : Option (List Int) :=
  if pyIn "/pull/" job_dir && !indirect then none
  else if !before.isEmpty then
    match pyInt? before with
    | none => none
    | some b => some (pyRange (b - 1) (max 0 (b - 1 - 40)))
  else
    match store (job_dir ++ "latest-build.txt") with
    | none => none
    | some content =>
      match pyInt? content with
      | none => none
      | some latest0 =>
        let suffix := if !indirect then "/started.json" else ".txt"
        let latest := probe
          (fun n => truthyS (store (job_dir ++ toString n ++ suffix))) latest0 fuel
        some (pyRange latest (max 0 (latest - 40)))

/-- The slow-path listing, sorted descending by the numeric-aware key
(`fstats.sort(key=..., reverse=True)`, a stable sort). -/
def sortedFstats (ls : List FStat) : List FStat :=
  ls.insertionSort (fun f g => lexLeN (padKey g.filename) (padKey f.filename) = true)

/-- Extraction of a build id from an indirect-mode pointer filename:
`re.search(r'/(\d*)\.txt$', filename)` and `group(1)`. -/
def indirectBuild? (fn : String) : Option String :=
  let l := fn.toList
  if ".txt".toList.isSuffixOf l then
    let core := l.take (l.length - 4)
    let ds := (core.reverse.takeWhile (fun c => c.isDigit)).reverse
    match core.reverse.drop ds.length with
    | '/' :: _ => some ds.asString
    | _ => none
  else none

/-- The build-id extraction of the `except` branch
(view_build.py:292-299): pointer files in indirect mode, directory
basenames in direct mode. -/
def extractBuilds (fstats : List FStat) (indirect : Bool) : List String :=
  if indirect then
    (fstats.filter (fun f => !f.is_dir)).filterMap (fun f => indirectBuild? f.filename)
  else
    (fstats.filter (fun f => f.is_dir)).map (fun f => basename (dirname f.filename))

/-- The `except (ValueError, TypeError):` branch of `get_build_numbers`
(view_build.py:288-302).  `ls` is the `view_base.gcs_ls(job_dir)`
listing. -/
def gbn_slow (ls : List FStat) (before : String) (indirect : Bool) : List String :=
  let builds := extractBuilds (sortedFstats ls) indirect
  let builds :=
    if !before.isEmpty && builds.contains before then
      builds.drop (builds.indexOf before + 1)
    else builds
  builds.take 40

/-- A value returned by `get_build_numbers`: the fast path returns
Python ints, the slow path returns strings. -/
inductive BuildId where
  | int (n : Int)
  | str (s : String)
deriving DecidableEq

/-- Embedding of `get_build_numbers` (view_build.py:273-302). -/
def get_build_numbers (store : String → Option String) (ls : List FStat)
    (job_dir before : String) (indirect : Bool) (fuel : Nat) : List BuildId :=
  match gbn_try store job_dir before indirect fuel with
  | some l => l.map BuildId.int
  | none => (gbn_slow ls before indirect).map BuildId.str

/-- The name part inherited from a suite's attribute dictionary
(`tree.attrib['name'] + ' '` when present, else the empty string). -/
def prefixFromAttrs (pa : List (String × String)) : String :=
  match List.lookup "name" pa with
  | some n => n ++ " "
  | none => ""

/-- The test cases visited by `handle_suite` below a suite with
attributes `pa` and children `cs`, each paired with the name part it is
handled under.  This mirrors the traversal of `walk`: a nested
`testsuite` contributes its cases under its own attributes only. -/
def docCases : List (String × String) → List Xml → List (String × Xml)
  | _, [] => []
  | pa, c :: rest =>
    match c with
    | .elem tag ca txt ccs =>
      if tag = "testsuite" then docCases ca ccs ++ docCases pa rest
      else if tag = "testcase" then
        (prefixFromAttrs pa, .elem tag ca txt ccs) :: docCases pa rest
      else docCases pa rest
termination_by _ cs => sizeOf cs
decreasing_by all_goals (simp_wf <;> omega)

/-- The test cases visited by `parse_xml` for a whole document tree. -/
def docCasesTop (t : Xml) : List (String × Xml) :=
  if t.tag = "testsuite" then docCases t.attrib t.children
  else if t.tag = "testsuites" then
    t.children.flatMap (fun c => docCases c.attrib c.children)
  else []

/-- Classification of a case element, following `handle_test`. -/
def isSkippedC (x : Xml) : Bool :=
  (x.children.find? (fun c => c.tag = "skipped")).isSome

def hasFailureC (x : Xml) : Bool :=
  (x.children.find? (fun c => c.tag = "failure")).isSome

def isFailedC (x : Xml) : Bool := !isSkippedC x && hasFailureC x

def isPassedC (x : Xml) : Bool := !isSkippedC x && !hasFailureC x

/-- The full name a case is recorded under. -/
def caseName (pr : String) (x : Xml) : String :=
  pr ++ ((List.lookup "name" x.attrib).getD "")

/-- The duration recorded for a failing case. -/
def caseTime (x : Xml) : ℚ :=
  (pyFloat? ((List.lookup "time" x.attrib).getD "")).getD 0

/-- The joined auxiliary output recorded for a failing case. -/
def caseOut (x : Xml) : String :=
  (joinTexts ((x.children.filter (fun c => c.tag = "system-out")).map Xml.text ++
    (x.children.filter (fun c => c.tag = "system-err")).map Xml.text)).getD ""

/-- Names of the passing cases of a visited-case list. -/
def passedOf (l : List (String × Xml)) : List String :=
  (l.filter (fun pc => isPassedC pc.2)).map (fun pc => caseName pc.1 pc.2)

/-- Names of the skipped cases of a visited-case list. -/
def skippedOf (l : List (String × Xml)) : List String :=
  (l.filter (fun pc => isSkippedC pc.2)).map (fun pc => caseName pc.1 pc.2)

/-- Failure tuples of the failing cases of a visited-case list: one per
`failure` child, as appended by `handle_test`. -/
def failedOf (fname : String) (l : List (String × Xml)) : List FailT :=
  l.flatMap (fun pc =>
    if isFailedC pc.2 then
      (pc.2.children.filter (fun c => c.tag = "failure")).map
        (fun p => (caseName pc.1 pc.2, caseTime pc.2, p.text, fname, caseOut pc.2))
    else [])

/-- Names of the failing cases of a visited-case list. -/
def failedNamesOf (l : List (String × Xml)) : List String :=
  (l.filter (fun pc => isFailedC pc.2)).map (fun pc => caseName pc.1 pc.2)

/-- All visited case names, in traversal order. -/
def caseNames (l : List (String × Xml)) : List String :=
  l.map (fun pc => caseName pc.1 pc.2)

/-! Concrete objects used by counterexamples and witnesses. -/

/-- A document with an outer suite named `o` containing an inner suite
named `i` containing one passing case `t`. -/
def xmlNested : Xml :=
  .elem "testsuite" [("name", "o")] none
    [.elem "testsuite" [("name", "i")] none
      [.elem "testcase" [("name", "t")] none []]]

def fsNested : List Nat → Except String Xml := fun _ => .ok xmlNested

/-- A document with a single case carrying two `failure` children. -/
def xmlTwoFail : Xml :=
  .elem "testsuite" [] none
    [.elem "testcase" [("name", "t"), ("time", "1.5")] none
      [.elem "failure" [] (some "boom") [], .elem "failure" [] (some "bam") []]]

def fsTwoFail : List Nat → Except String Xml := fun _ => .ok xmlTwoFail

/-- A well-formed document whose only case lacks a `name` attribute. -/
def xmlNoName : Xml :=
  .elem "testsuite" [] none [.elem "testcase" [("time", "1.0")] none []]

def fsNoName : List Nat → Except String Xml := fun _ => .ok xmlNoName

/-- A well-formed document whose only (failing) case lacks a `time`
attribute. -/
def xmlNoTime : Xml :=
  .elem "testsuite" [] none
    [.elem "testcase" [("name", "t")] none [.elem "failure" [] (some "b") []]]

def fsNoTime : List Nat → Except String Xml := fun _ => .ok xmlNoTime

/-- A document with one passing case. -/
def xmlOnePass : Xml :=
  .elem "testsuite" [] none [.elem "testcase" [("name", "t")] none []]

def fsOnePass : List Nat → Except String Xml := fun _ => .ok xmlOnePass

/-- A blob store with no objects. -/
def storeNone : String → Option String := fun _ => none

/-- Listing of a PR job directory holding build directories 7 and 5. -/
def lsPull75 : List FStat :=
  [⟨"/b/pull/j/7/", true⟩, ⟨"/b/pull/j/5/", true⟩]

/-- Listing of a plain job directory holding build directory 5. -/
def lsLogs5 : List FStat := [⟨"/logs/j/5/", true⟩]

/-- The blob store of fast-path scenario D: latest-pointer 100, started
markers for 101 and 102, nothing for 103. -/
def storeScenD : String → Option String := fun p =>
  if p = "/j/latest-build.txt" then some "100"
  else if p = "/j/101/started.json" then some "go"
  else if p = "/j/102/started.json" then some "go"
  else none

/-- PR history entries used for the re-sort and batch examples. -/
def prHash5 : PREntry := ⟨"abcdefghij", some (.obj [("timestamp", .num 5)]), none⟩

def prNum9 : PREntry := ⟨"2", some (.obj [("timestamp", .num 9)]), none⟩

def prNoStart : PREntry := ⟨"3", none, none⟩

/-- A batch history entry started well inside the last day. -/
def prRecent : PREntry := ⟨"123", some (.obj [("timestamp", .num 999999999)]), none⟩

/-- A simple `json.loads` used by witnesses. -/
def loadsEx : String → Except String Json := fun s =>
  if s = "null" then .ok .null
  else if s = "{}" then .ok (.obj [])
  else .error "ValueError: bad json"

/-- An `ET.fromstring` that always fails to parse. -/
def fsFail : List Nat → Except String Xml := fun _ => .error "syntax error"

/-- An `ET.fromstring` that fails on the raw bytes `[0]` but succeeds
after sanitizing. -/
def fsRetry : List Nat → Except String Xml := fun l =>
  if l = [0] then .error "broken" else .ok xmlOnePass

/-- The empty parse result. -/
def emptyResult : SuiteResult := ⟨[], [], []⟩

/-- C1: `build_details` returns `none` when neither marker is readable;
when exactly one marker is readable the missing one becomes an explicit
JSON `null` (via the `'null'` re-binding and `json.loads('null')`) and
the build still resolves, with results parsed from whatever artifacts
exist. -/
theorem c1_presence_policy (loads : String → Except String Json)
    (fs : List Nat → Except String Xml) (sRaw fRaw : Option String)
    (aLs : List FStat) (aRead : String → Option (List Nat))
    (sv fv : Json) (res : SuiteResult) :
    (truthyS sRaw = false → truthyS fRaw = false →
      build_details loads fs sRaw fRaw aLs aRead = .ok none)
    ∧ (truthyS sRaw = true → truthyS fRaw = false →
      loads (sRaw.getD "") = .ok sv → loads "null" = .ok .null →
      parse_artifacts fs aLs aRead = .ok res →
      build_details loads fs sRaw fRaw aLs aRead = .ok (some (sv, .null, res)))
    ∧ (truthyS sRaw = false → truthyS fRaw = true →
      loads (fRaw.getD "") = .ok fv → loads "null" = .ok .null →
      parse_artifacts fs aLs aRead = .ok res →
      build_details loads fs sRaw fRaw aLs aRead = .ok (some (.null, fv, res))) := by
  have hnullT : truthyS (some "null") = true := rfl
  refine ⟨fun h1 h2 => ?_, fun h1 h2 hs hn ha => ?_, fun h1 h2 hf hn ha => ?_⟩
  · simp [build_details, h1, h2]
  · simp [build_details, h1, h2, hs, hn, ha]
    rfl
  · simp [build_details, h1, h2, hf, hn, ha, hnullT]
    rfl

theorem c1_presence_policy_witness :
    build_details loadsEx fsFail none none [] (fun _ => none) = .ok none
    ∧ build_details loadsEx fsFail (some "{}") none [] (fun _ => none) =
        .ok (some (.obj [], .null, emptyResult))
    ∧ build_details loadsEx fsFail none (some "{}") [] (fun _ => none) =
        .ok (some (.null, .obj [], emptyResult)) :=
  ⟨(c1_presence_policy loadsEx fsFail none none [] (fun _ => none)
      .null .null emptyResult).1 rfl rfl,
   (c1_presence_policy loadsEx fsFail (some "{}") none [] (fun _ => none)
      (.obj []) .null emptyResult).2.1 rfl rfl rfl rfl rfl,
   (c1_presence_policy loadsEx fsFail none (some "{}") [] (fun _ => none)
      .null (.obj []) emptyResult).2.2 rfl rfl rfl rfl rfl⟩

/-- C2: an absent or empty document yields the parser state unchanged
without consulting the external parser; a document that fails to parse
is reparsed once after sanitizing; if that also fails, no exception is
raised and, from a fresh parser, exactly one synthetic failed outcome is
recorded, named for an internal parse error and carrying the parse error
message and the source label. -/
theorem c2_parse_resilience (fs : List Nat → Except String Xml) (xml : List Nat)
    (fname : String) (st : JState) (t : Xml) (e1 e2 : String) :
    (parse_xml fs none fname st = .ok st)
    ∧ (parse_xml fs (some []) fname st = .ok st)
    ∧ (xml ≠ [] → fs xml = .error e1 → fs (sanitize xml) = .ok t →
      parse_xml fs (some xml) fname st = parse_tree t fname st)
    ∧ (xml ≠ [] → fs xml = .error e1 → fs (sanitize xml) = .error e2 →
      parse_xml fs (some xml) fname initJState =
        .ok ⟨[], [],
          [("Gubernator Internal Fatal XML Parse Error", 0, some e2, fname, "")]⟩) := by
  refine ⟨?_, ?_, fun h0 h1 h2 => ?_, fun h0 h1 h2 => ?_⟩
  · simp [parse_xml, truthyB]
  · simp [parse_xml, truthyB]
  · simp [parse_xml, truthyB, List.isEmpty_iff, h0, h1, h2]
  · simp [parse_xml, truthyB, List.isEmpty_iff, h0, h1, h2, initJState]

theorem c2_parse_resilience_witness :
    parse_xml fsRetry (some [0]) "f.xml" initJState =
      parse_tree xmlOnePass "f.xml" initJState
    ∧ parse_xml fsFail (some [0]) "f.xml" initJState =
      .ok ⟨[], [],
        [("Gubernator Internal Fatal XML Parse Error", 0, some "syntax error",
          "f.xml", "")]⟩ :=
  ⟨(c2_parse_resilience fsRetry [0] "f.xml" initJState xmlOnePass "broken"
      "broken").2.2.1 (by decide) rfl rfl,
   (c2_parse_resilience fsFail [0] "f.xml" initJState xmlOnePass "syntax error"
      "syntax error").2.2.2 (by decide) rfl rfl⟩

/-- C5: with a latest-pointer of 100 and started markers present for 101
and 102 but not 103, the fast path probes upward from the pointer, stops
at the first miss, and enumerates 102, 101, 100, 99, ... (40 entries,
descending).  The listing `ls` is universally quantified and does not
occur in the result, so no directory listing is consulted. -/
theorem c5_fast_path_probe (store : String → Option String) (jd : String)
    (ls : List FStat) (k : Nat)
    (hpull : pyIn "/pull/" jd = false)
    (hptr : store (jd ++ "latest-build.txt") = some "100")
    (h101 : truthyS (store (jd ++ "101" ++ "/started.json")) = true)
    (h102 : truthyS (store (jd ++ "102" ++ "/started.json")) = true)
    (h103 : truthyS (store (jd ++ "103" ++ "/started.json")) = false) :
    get_build_numbers store ls jd "" false (k + 3) = (pyRange 102 62).map .int
    ∧ (pyRange 102 62).take 4 = [102, 101, 100, 99]
    ∧ (pyRange 102 62).length = 40 := by
  have e1 : (100 : Int) + 1 = 101 := by norm_num
  have e2 : (101 : Int) + 1 = 102 := by norm_num
  have e3 : (102 : Int) + 1 = 103 := by norm_num
  have t1 : toString (101 : Int) = "101" := rfl
  have t2 : toString (102 : Int) = "102" := rfl
  have t3 : toString (103 : Int) = "103" := rfl
  have hprobe : probe (fun n => truthyS (store (jd ++ toString n ++ "/started.json")))
      100 (k + 3) = 102 := by
    show probe _ 100 (k + 2 + 1) = 102
    rw [probe, e1, t1, if_pos h101]
    show probe _ 101 (k + 1 + 1) = 102
    rw [probe, e2, t2, if_pos h102]
    show probe _ 102 (k + 0 + 1) = 102
    rw [probe, e3, t3, if_neg (by rw [h103]; exact Bool.false_ne_true)]
  have hmax : max (0 : Int) 62 = 62 := by decide
  have hemp : ((("" : String)).isEmpty) = true := rfl
  have hi100 : pyInt? "100" = some 100 := by decide
  have htry : gbn_try store jd "" false (k + 3) = some (pyRange 102 62) := by
    simp [gbn_try, hpull, hptr, hprobe, hemp, hi100, hmax]
  refine ⟨?_, by decide, by decide⟩
  simp [get_build_numbers, htry]

theorem c5_fast_path_probe_witness :
    get_build_numbers storeScenD [⟨"/j/1/", true⟩] "/j/" "" false 50 =
      (pyRange 102 62).map .int :=
  (c5_fast_path_probe storeScenD "/j/" [⟨"/j/1/", true⟩] 47 (by decide)
    rfl rfl rfl rfl).1

/-- C6: the `pr == 'batch'` truncation block, as written, rebinds
`builds` to an empty dict before iterating it, so it returns an empty
mapping and discards every job's history — including entries started
within the last 24 hours, which the block's own comment (`truncate
batch results to last day`) and the loop body say should be kept. -/
theorem c6_batch_truncate_discards_everything :
    batch_truncate [("pull-batch-job", [prRecent])] 1000000000 = []
    ∧ batch_truncate_intended [("pull-batch-job", [prRecent])] 1000000000 =
        [("pull-batch-job", [prRecent])] := by
  refine ⟨rfl, ?_⟩
  norm_num [batch_truncate_intended, tsGtCutoff, truthyJson, prRecent, List.lookup]

/-- C7: in the PR table path, a job history containing any build id
longer than 8 characters is re-sorted into descending start-timestamp
order (a permutation of the history, sorted by `startedTimestamp`
descending); a history with only short ids is left in its id-based
order. -/
theorem c7_hash_resort (bs : List PREntry) :
    ((bs.any (fun e => 8 < e.build.length)) = true →
      (pr_resort bs).Perm bs
      ∧ (pr_resort bs).Pairwise
          (fun x y => startedTimestamp y.started ≤ startedTimestamp x.started))
    ∧ ((bs.any (fun e => 8 < e.build.length)) = false → pr_resort bs = bs) := by
  constructor
  · intro h
    unfold pr_resort
    rw [if_pos h]
    constructor
    · exact List.perm_insertionSort _ _
    · haveI : IsTrans PREntry (fun x y =>
          (-startedTimestamp x.started ≤ -startedTimestamp y.started)) :=
        ⟨fun a b c hab hbc => le_trans hab hbc⟩
      haveI : IsTotal PREntry (fun x y =>
          (-startedTimestamp x.started ≤ -startedTimestamp y.started)) :=
        ⟨fun a b => le_total _ _⟩
      have hs := List.sorted_insertionSort
        (fun x y => (-startedTimestamp x.started ≤ -startedTimestamp y.started)) bs
      exact hs.imp (fun hxy => neg_le_neg_iff.mp hxy)
  · intro h
    unfold pr_resort
    rw [if_neg (by rw [h]; exact Bool.false_ne_true)]

theorem c7_hash_resort_witness :
    ((pr_resort [prHash5, prNum9, prNoStart]).Perm [prHash5, prNum9, prNoStart]
      ∧ (pr_resort [prHash5, prNum9, prNoStart]).Pairwise
          (fun x y => startedTimestamp y.started ≤ startedTimestamp x.started))
    ∧ pr_resort [prNum9, prNoStart] = [prNum9, prNoStart] :=
  ⟨(c7_hash_resort [prHash5, prNum9, prNoStart]).1 (by decide),
   (c7_hash_resort [prNum9, prNoStart]).2 (by decide)⟩

/-- C10: the parser is not total over well-formed documents: a document
whose `testcase` lacks a `name` attribute, or whose failing `testcase`
lacks a `time` attribute, makes attribute lookup raise an uncaught
exception (outside the parse-error recovery), so `parse_xml` raises
instead of returning results. -/
theorem c10_parser_not_total :
    fsNoName [60] = .ok xmlNoName
    ∧ parse_xml fsNoName (some [60]) "junit_01.xml" initJState =
        .error "KeyError: name"
    ∧ fsNoTime [60] = .ok xmlNoTime
    ∧ parse_xml fsNoTime (some [60]) "junit_01.xml" initJState =
        .error "KeyError: time" := by
  refine ⟨rfl, ?_, rfl, ?_⟩
  · simp [parse_xml, truthyB, fsNoName, xmlNoName, parse_tree, handle_suite, walk,
      handle_test, Xml.tag, Xml.attrib, Xml.children, List.lookup]
  · simp [parse_xml, truthyB, fsNoTime, xmlNoTime, parse_tree, handle_suite, walk,
      handle_test, Xml.tag, Xml.attrib, Xml.children, List.lookup]

theorem pyRange_length (a b : Int) : (pyRange a b).length = (a - b).toNat := by
  rw [pyRange, List.length_map, List.length_range]

theorem pyRange_pairwise (a b : Int) :
    (pyRange a b).Pairwise (fun x y => y < x) := by
  rw [pyRange, List.pairwise_map]
  refine (List.pairwise_lt_range _).imp ?_
  intro i j hij
  omega

theorem pyRange_mem_le {x a b : Int} (h : x ∈ pyRange a b) : x ≤ a := by
  simp only [pyRange, List.mem_map, List.mem_range] at h
  obtain ⟨i, _, hi⟩ := h
  omega

theorem lexLeN_le_head {x y : Nat} {xs ys : List Nat}
    (h : lexLeN (x :: xs) (y :: ys) = true) : x ≤ y := by
  simp only [lexLeN] at h
  split at h
  · next h1 => omega
  · split at h
    · simp at h
    · next h1 h2 => omega

theorem lexLeN_tail {x : Nat} {xs ys : List Nat}
    (h : lexLeN (x :: xs) (x :: ys) = true) : lexLeN xs ys = true := by
  simp only [lexLeN] at h
  split at h
  · next hlt => omega
  · exact h

theorem lexLeN_total : ∀ a b : List Nat, lexLeN a b = true ∨ lexLeN b a = true := by
  intro a
  induction a with
  | nil => intro b; left; simp [lexLeN]
  | cons x xs ih =>
    intro b
    cases b with
    | nil => right; simp [lexLeN]
    | cons y ys =>
      by_cases hxy : x < y
      · left; simp [lexLeN, hxy]
      · by_cases hyx : y < x
        · right
          simp only [lexLeN]
          rw [if_pos hyx]
        · rcases ih ys with h | h
          · left; simp [lexLeN, hxy, hyx, h]
          · right
            have hx_eq : y = x := by omega
            subst hx_eq
            simp [lexLeN, hxy, h]

theorem lexLeN_trans : ∀ a b c : List Nat,
    lexLeN a b = true → lexLeN b c = true → lexLeN a c = true := by
  intro a
  induction a with
  | nil => intro b c _ _; simp [lexLeN]
  | cons x xs ih =>
    intro b c hab hbc
    cases b with
    | nil => simp [lexLeN] at hab
    | cons y ys =>
      cases c with
      | nil => simp [lexLeN] at hbc
      | cons z zs =>
        have hxy := lexLeN_le_head hab
        have hyz := lexLeN_le_head hbc
        by_cases hxz : x < z
        · simp [lexLeN, hxz]
        · have hx_eq_y : x = y := by omega
          subst hx_eq_y
          have hx_eq_z : x = z := by omega
          subst hx_eq_z
          have htail_ab : lexLeN xs ys = true := lexLeN_tail hab
          have htail_bc : lexLeN ys zs = true := lexLeN_tail hbc
          simp only [lexLeN]
          split
          · rfl
          · exact ih ys zs htail_ab htail_bc

theorem pyInt?_empty : pyInt? "" = none := by decide

theorem gbn_slow_sublist (ls : List FStat) (before : String) (ind : Bool) :
    (gbn_slow ls before ind).Sublist (extractBuilds (sortedFstats ls) ind) := by
  rw [gbn_slow]
  split
  · exact (List.take_sublist _ _).trans (List.drop_sublist _ _)
  · exact List.take_sublist _ _

theorem sortedFstats_pairwise (ls : List FStat) :
    (sortedFstats ls).Pairwise
      (fun f g => lexLeN (padKey g.filename) (padKey f.filename) = true) := by
  haveI : IsTrans FStat
      (fun f g => lexLeN (padKey g.filename) (padKey f.filename) = true) :=
    ⟨fun a b c hab hbc => lexLeN_trans _ _ _ hbc hab⟩
  haveI : IsTotal FStat
      (fun f g => lexLeN (padKey g.filename) (padKey f.filename) = true) :=
    ⟨fun a b => (lexLeN_total (padKey b.filename) (padKey a.filename))⟩
  exact List.sorted_insertionSort _ ls

theorem gbn_try_some {store : String → Option String} {jd before : String}
    {ind : Bool} {fuel : Nat} {l : List Int}
    (h : gbn_try store jd before ind fuel = some l) :
    ∃ a : Int, l = pyRange a (max 0 (a - 40))
      ∧ (∀ b : Int, pyInt? before = some b → a = b - 1) := by
  rw [gbn_try] at h
  split at h
  · simp at h
  · split at h
    · next hne =>
      match he : pyInt? before with
      | none => rw [he] at h; simp at h
      | some b =>
        rw [he] at h
        simp only [Option.some.injEq] at h
        refine ⟨b - 1, h.symm, fun b2 hb2 => ?_⟩
        have hbb : b = b2 := by injection hb2
        omega
    · next hne =>
      match hs : store (jd ++ "latest-build.txt") with
      | none => rw [hs] at h; simp at h
      | some content =>
        rw [hs] at h
        simp only at h
        match hi : pyInt? content with
        | none => rw [hi] at h; simp at h
        | some latest0 =>
          rw [hi] at h
          simp only [Option.some.injEq] at h
          refine ⟨_, h.symm, fun b2 hb2 => ?_⟩
          have hbe : before.isEmpty = true := by
            cases hbe : before.isEmpty
            · simp [hbe] at hne
            · rfl
          have hb : before = "" := (String.isEmpty_iff before).mp hbe
          rw [hb, pyInt?_empty] at hb2
          exact absurd hb2 (by simp)

theorem gbn_slow_length (ls : List FStat) (before : String) (ind : Bool) :
    (gbn_slow ls before ind).length ≤ 40 := by
  rw [gbn_slow]
  exact List.length_take_le _ _

/-- C3 (amended): the enumerator's output always has length at most 40.
On the fast/arithmetic path the output is strictly descending and, when
`before` parses as an integer `b`, every returned id is `< b`.  On the
slow path the listing is sorted non-strictly descending under the
numeric-aware key, the output is an order-preserving selection of the
extracted ids, and ids at or newer than `before` are dropped only when
`before` itself occurs among the extracted ids. -/
theorem c3_enumerate_window (store : String → Option String) (ls : List FStat)
    (jd before : String) (ind : Bool) (fuel : Nat) :
    (get_build_numbers store ls jd before ind fuel).length ≤ 40
    ∧ (∀ l, gbn_try store jd before ind fuel = some l →
        get_build_numbers store ls jd before ind fuel = l.map .int
        ∧ l.Pairwise (fun x y => y < x)
        ∧ (∀ b, pyInt? before = some b → ∀ x ∈ l, x < b))
    ∧ (gbn_try store jd before ind fuel = none →
        get_build_numbers store ls jd before ind fuel =
          (gbn_slow ls before ind).map .str
        ∧ (sortedFstats ls).Pairwise
            (fun f g => lexLeN (padKey g.filename) (padKey f.filename) = true)
        ∧ (gbn_slow ls before ind).Sublist (extractBuilds (sortedFstats ls) ind)
        ∧ (before.isEmpty = false →
            (extractBuilds (sortedFstats ls) ind).contains before = true →
            (gbn_slow ls before ind).Sublist
              ((extractBuilds (sortedFstats ls) ind).drop
                ((extractBuilds (sortedFstats ls) ind).indexOf before + 1)))) := by
  refine ⟨?_, fun l hl => ?_, fun h0 => ?_⟩
  · cases hg : gbn_try store jd before ind fuel with
    | none =>
      rw [get_build_numbers, hg, List.length_map]
      exact gbn_slow_length ls before ind
    | some l =>
      rw [get_build_numbers, hg, List.length_map]
      obtain ⟨a, hla, _⟩ := gbn_try_some hg
      rw [hla, pyRange_length]
      omega
  · obtain ⟨a, hla, hb⟩ := gbn_try_some hl
    refine ⟨by rw [get_build_numbers, hl], ?_, fun b hpb x hx => ?_⟩
    · rw [hla]; exact pyRange_pairwise _ _
    · have hab : a = b - 1 := hb b hpb
      rw [hla] at hx
      have := pyRange_mem_le hx
      omega
  · refine ⟨by rw [get_build_numbers, h0], sortedFstats_pairwise ls,
      gbn_slow_sublist ls before ind, fun hne hmem => ?_⟩
    rw [gbn_slow]
    rw [if_pos (by rw [hne, hmem]; rfl)]
    exact List.take_sublist _ _

/-- C3 counterexample: slow path (a `/pull/` directory in direct mode)
with `before = "6"` absent from the listing returns the id `"7"`, which
is newer than (≥) the cursor both numerically and under the
numeric-aware key — the claim's `no returned id ≥ B` fails. -/
theorem c3_cex :
    get_build_numbers storeNone lsPull75 "/b/pull/j/" "6" false 0 =
      [.str "7", .str "5"]
    ∧ BuildId.str "7" ∈ get_build_numbers storeNone lsPull75 "/b/pull/j/" "6" false 0
    ∧ pyInt? "7" = some 7 ∧ pyInt? "6" = some 6 ∧ ¬((7 : Int) < 6)
    ∧ lexLeN (padKey "6") (padKey "7") = true := by
  refine ⟨by decide, by decide, by decide, by decide, by decide, by decide⟩

/-- Witness for the amended C3 at concrete fast-path and slow-path
inputs. -/
theorem c3_witness :
    get_build_numbers storeNone lsLogs5 "/logs/j/" "100" false 0 =
      (pyRange 99 (max 0 59)).map .int
    ∧ (pyRange 99 (max 0 59)).Pairwise (fun x y => y < x)
    ∧ get_build_numbers storeNone lsPull75 "/b/pull/j/" "6" false 0 =
        (gbn_slow lsPull75 "6" false).map .str := by
  have h1 := (c3_enumerate_window storeNone lsLogs5 "/logs/j/" "100" false 0).2.1
    (pyRange 99 (max 0 59)) (by decide)
  have h2 := (c3_enumerate_window storeNone lsPull75 "/b/pull/j/" "6" false 0).2.2
    (by decide)
  exact ⟨h1.1, h1.2.1, h2.1⟩

/-- C4 (amended): when `before` parses as an integer the enumerator
performs neither the latest-pointer fast path nor (outside direct-mode
`/pull/` directories) the slow listing path: it returns the arithmetic
range `int(before)-1` downward, independent of the blob store and of the
listing. -/
theorem c4_numeric_before (store : String → Option String) (ls : List FStat)
    (jd before : String) (b : Int) (ind : Bool) (fuel : Nat)
    (h : pyInt? before = some b) (hne : before.isEmpty = false) :
    get_build_numbers store ls jd before ind fuel =
      if pyIn "/pull/" jd && !ind then (gbn_slow ls before ind).map .str
      else (pyRange (b - 1) (max 0 (b - 1 - 40))).map .int := by
  have hg : gbn_try store jd before ind fuel =
      if pyIn "/pull/" jd && !ind then none
      else some (pyRange (b - 1) (max 0 (b - 1 - 40))) := by
    rw [gbn_try]
    by_cases hp : (pyIn "/pull/" jd && !ind) = true
    · rw [if_pos hp, if_pos hp]
    · rw [if_neg hp, if_neg hp, if_pos (by rw [hne]; rfl), h]
  by_cases hp : (pyIn "/pull/" jd && !ind) = true
  · rw [get_build_numbers, hg, if_pos hp, if_pos hp]
  · rw [get_build_numbers, hg, if_neg hp, if_neg hp]

/-- C4 counterexample: with `before = "100"` on an ordinary job
directory the output is the arithmetic range `[99..60]`, not the
slow-path listing output `["5"]` — no full directory listing is
performed, contrary to the claim. -/
theorem c4_cex :
    get_build_numbers storeNone lsLogs5 "/logs/j/" "100" false 0 =
      (pyRange 99 59).map .int
    ∧ (gbn_slow lsLogs5 "100" false).map BuildId.str = [.str "5"]
    ∧ get_build_numbers storeNone lsLogs5 "/logs/j/" "100" false 0 ≠
        (gbn_slow lsLogs5 "100" false).map BuildId.str := by
  refine ⟨by decide, by decide, by decide⟩

/-- Witness for the amended C4 at a concrete numeric cursor. -/
theorem c4_witness :
    get_build_numbers storeNone lsLogs5 "/logs/j/" "100" false 0 =
      if pyIn "/pull/" "/logs/j/" && !false then (gbn_slow lsLogs5 "100" false).map .str
      else (pyRange (100 - 1) (max 0 (100 - 1 - 40))).map .int :=
  c4_numeric_before storeNone lsLogs5 "/logs/j/" "100" 100 false 0 (by decide) rfl

theorem handle_test_ok {c : Xml} {fname pfx : String} {st st' : JState}
    (h : handle_test c fname pfx st = .ok st') :
    (isSkippedC c = true
      ∧ st' = { st with skipped := st.skipped ++ [caseName pfx c] })
    ∨ (isFailedC c = true
      ∧ st' = { st with failed := st.failed ++ failedOf fname [(pfx, c)] })
    ∨ (isPassedC c = true
      ∧ st' = { st with passed := st.passed ++ [caseName pfx c] }) := by
  simp only [handle_test] at h
  split at h
  · exact absurd h (by simp)
  · next nm hn =>
    split at h
    · next hsk =>
      left
      refine ⟨by simp [isSkippedC, hsk], ?_⟩
      injection h with h
      rw [← h]
      simp [caseName, hn]
    · next hsk =>
      split at h
      · next hfl =>
        split at h
        · exact absurd h (by simp)
        · next tv ht =>
          split at h
          · exact absurd h (by simp)
          · next time htm =>
            split at h
            · exact absurd h (by simp)
            · next outs hout =>
              right; left
              refine ⟨by simp [isFailedC, isSkippedC, hasFailureC, hsk, hfl], ?_⟩
              injection h with h
              rw [← h]
              simp only [failedOf, List.flatMap_cons, List.flatMap_nil, List.append_nil]
              rw [if_pos (by simp [isFailedC, isSkippedC, hasFailureC, hsk, hfl])]
              simp [caseName, caseTime, caseOut, hn, ht, htm, hout]
      · next hfl =>
        right; right
        refine ⟨by simp [isPassedC, isSkippedC, hasFailureC, hsk, hfl], ?_⟩
        injection h with h
        rw [← h]
        simp [caseName, hn]

theorem passedOf_append (l1 l2 : List (String × Xml)) :
    passedOf (l1 ++ l2) = passedOf l1 ++ passedOf l2 := by
  simp [passedOf, List.filter_append]

theorem skippedOf_append (l1 l2 : List (String × Xml)) :
    skippedOf (l1 ++ l2) = skippedOf l1 ++ skippedOf l2 := by
  simp [skippedOf, List.filter_append]

theorem failedOf_append (fname : String) (l1 l2 : List (String × Xml)) :
    failedOf fname (l1 ++ l2) = failedOf fname l1 ++ failedOf fname l2 := by
  simp [failedOf]

theorem passedOf_cons (p : String) (c : Xml) (l : List (String × Xml)) :
    passedOf ((p, c) :: l) =
      (if isPassedC c then [caseName p c] else []) ++ passedOf l := by
  simp only [passedOf, List.filter_cons]
  split
  · next hc => simp
  · next hc => simp

theorem skippedOf_cons (p : String) (c : Xml) (l : List (String × Xml)) :
    skippedOf ((p, c) :: l) =
      (if isSkippedC c then [caseName p c] else []) ++ skippedOf l := by
  simp only [skippedOf, List.filter_cons]
  split
  · next hc => simp
  · next hc => simp

theorem failedOf_cons (fname p : String) (c : Xml) (l : List (String × Xml)) :
    failedOf fname ((p, c) :: l) = failedOf fname [(p, c)] ++ failedOf fname l := by
  simp [failedOf]

theorem walk_ok : ∀ (n : Nat) (cs : List Xml), sizeOf cs ≤ n →
    ∀ (fname : String) (pa : List (String × String)) (st st' : JState),
    walk fname pa cs st = .ok st' →
    st'.skipped = st.skipped ++ skippedOf (docCases pa cs)
    ∧ st'.passed = st.passed ++ passedOf (docCases pa cs)
    ∧ st'.failed = st.failed ++ failedOf fname (docCases pa cs) := by
  intro n
  induction n with
  | zero =>
    intro cs hsz
    exfalso
    cases cs with
    | nil => simp at hsz
    | cons c rest => simp at hsz
  | succ n ih =>
    intro cs hsz fname pa st st' hw
    cases cs with
    | nil =>
      simp only [walk] at hw
      injection hw with hw
      simp [← hw, docCases, passedOf, skippedOf, failedOf]
    | cons c rest =>
      cases c with
      | elem tag ca txt ccs =>
        have hszc : sizeOf ccs ≤ n ∧ sizeOf rest ≤ n := by
          simp only [List.cons.sizeOf_spec, Xml.elem.sizeOf_spec] at hsz
          omega
        simp only [walk] at hw
        split at hw
        · next htag =>
          subst htag
          split at hw
          · next st1 heq =>
            have h1 := ih ccs hszc.1 fname ca st st1 heq
            have h2 := ih rest hszc.2 fname pa st1 st' hw
            have hdc : docCases pa (Xml.elem "testsuite" ca txt ccs :: rest) =
                docCases ca ccs ++ docCases pa rest := by
              simp [docCases]
            rw [hdc, skippedOf_append, passedOf_append, failedOf_append]
            refine ⟨?_, ?_, ?_⟩
            · rw [h2.1, h1.1, List.append_assoc]
            · rw [h2.2.1, h1.2.1, List.append_assoc]
            · rw [h2.2.2, h1.2.2, List.append_assoc]
          · next e heq => exact absurd hw (by simp)
        · next htag =>
          split at hw
          · next htag2 =>
            subst htag2
            split at hw
            · next st1 heq =>
              have hpfx : (match List.lookup "name" pa with
                  | some n => n ++ " "
                  | none => "") = prefixFromAttrs pa := rfl
              rw [hpfx] at heq
              have h2 := ih rest hszc.2 fname pa st1 st' hw
              have hdc : docCases pa (Xml.elem "testcase" ca txt ccs :: rest) =
                  (prefixFromAttrs pa, Xml.elem "testcase" ca txt ccs) ::
                    docCases pa rest := by
                simp [docCases]
              rw [hdc, skippedOf_cons, passedOf_cons, failedOf_cons]
              rcases handle_test_ok heq with ⟨hb, hst1⟩ | ⟨hb, hst1⟩ | ⟨hb, hst1⟩
              · have hnp : isPassedC (Xml.elem "testcase" ca txt ccs) = false := by
                  simp [isPassedC, hb]
                have hnf : isFailedC (Xml.elem "testcase" ca txt ccs) = false := by
                  simp [isFailedC, hb]
                subst hst1
                refine ⟨?_, ?_, ?_⟩
                · rw [h2.1]; simp [hb, List.append_assoc]
                · rw [h2.2.1]; simp [hnp]
                · rw [h2.2.2]; simp [failedOf, hnf]
              · have hand := hb
                simp only [isFailedC, Bool.and_eq_true] at hand
                have hns : isSkippedC (Xml.elem "testcase" ca txt ccs) = false := by
                  have := hand.1
                  simp only [Bool.not_eq_true'] at this
                  exact this
                have hnp : isPassedC (Xml.elem "testcase" ca txt ccs) = false := by
                  simp [isPassedC, hand.2]
                subst hst1
                refine ⟨?_, ?_, ?_⟩
                · rw [h2.1]; simp [hns]
                · rw [h2.2.1]; simp [hnp]
                · rw [h2.2.2]; simp [hb, List.append_assoc]
              · have hand := hb
                simp only [isPassedC, Bool.and_eq_true] at hand
                have hns : isSkippedC (Xml.elem "testcase" ca txt ccs) = false := by
                  have := hand.1
                  simp only [Bool.not_eq_true'] at this
                  exact this
                have hnf : isFailedC (Xml.elem "testcase" ca txt ccs) = false := by
                  simp [isFailedC, hns]
                  have := hand.2
                  simp only [Bool.not_eq_true'] at this
                  simp [this]
                subst hst1
                refine ⟨?_, ?_, ?_⟩
                · rw [h2.1]; simp [hns]
                · rw [h2.2.1]; simp [hb, List.append_assoc]
                · rw [h2.2.2]; simp [failedOf, hnf]
            · next e heq => exact absurd hw (by simp)
          · next htag2 =>
            have h2 := ih rest hszc.2 fname pa st st' hw
            have hdc : docCases pa (Xml.elem tag ca txt ccs :: rest) =
                docCases pa rest := by
              simp [docCases, htag, htag2]
            rw [hdc]
            exact h2

theorem suitesLoop_ok : ∀ (cs : List Xml) (fname : String) (st st' : JState),
    suitesLoop fname cs st = .ok st' →
    st'.skipped = st.skipped ++
      skippedOf (cs.flatMap (fun c => docCases c.attrib c.children))
    ∧ st'.passed = st.passed ++
      passedOf (cs.flatMap (fun c => docCases c.attrib c.children))
    ∧ st'.failed = st.failed ++
      failedOf fname (cs.flatMap (fun c => docCases c.attrib c.children)) := by
  intro cs
  induction cs with
  | nil =>
    intro fname st st' h
    simp only [suitesLoop] at h
    injection h with h
    simp [← h, skippedOf, passedOf, failedOf]
  | cons c rest ih =>
    intro fname st st' h
    simp only [suitesLoop] at h
    split at h
    · next st1 heq =>
      have h1 : walk fname c.attrib c.children st = .ok st1 := by
        cases c with
        | elem tag ca txt ccs => exact heq
      have hc := walk_ok (sizeOf c.children) c.children (le_refl _) fname
        c.attrib st st1 h1
      have h2 := ih fname st1 st' h
      rw [List.flatMap_cons, skippedOf_append, passedOf_append, failedOf_append]
      refine ⟨?_, ?_, ?_⟩
      · rw [h2.1, hc.1, List.append_assoc]
      · rw [h2.2.1, hc.2.1, List.append_assoc]
      · rw [h2.2.2, hc.2.2, List.append_assoc]
    · next e heq => exact absurd h (by simp)

theorem parse_tree_ok {t : Xml} {fname : String} {st st' : JState}
    (h : parse_tree t fname st = .ok st') :
    st'.skipped = st.skipped ++ skippedOf (docCasesTop t)
    ∧ st'.passed = st.passed ++ passedOf (docCasesTop t)
    ∧ st'.failed = st.failed ++ failedOf fname (docCasesTop t) := by
  rw [parse_tree] at h
  rw [docCasesTop]
  split at h
  · next htag =>
    rw [if_pos htag]
    cases t with
    | elem tag ca txt ccs =>
      exact walk_ok (sizeOf ccs) ccs (le_refl _) fname ca st st' h
  · next htag =>
    split at h
    · next htag2 =>
      rw [if_neg htag, if_pos htag2]
      exact suitesLoop_ok t.children fname st st' h
    · next htag2 =>
      rw [if_neg htag, if_neg htag2]
      injection h with h
      simp [← h, skippedOf, passedOf, failedOf]

theorem counts_eq (fname : String) : ∀ (l : List (String × Xml)),
    (∀ pc ∈ l, isFailedC pc.2 = true →
      (pc.2.children.filter (fun c => c.tag = "failure")).length = 1) →
    (passedOf l).length + (failedOf fname l).length + (skippedOf l).length =
      (caseNames l).length := by
  intro l
  induction l with
  | nil => intro _; simp [passedOf, failedOf, skippedOf, caseNames]
  | cons pc rest ih =>
    intro hf
    obtain ⟨p, c⟩ := pc
    have hrest := ih (fun x hx hfx => hf x (List.mem_cons_of_mem _ hx) hfx)
    rw [passedOf_cons, skippedOf_cons, failedOf_cons]
    have hcn : (caseNames ((p, c) :: rest)).length = (caseNames rest).length + 1 := by
      simp [caseNames]
    rw [hcn]
    simp only [List.length_append]
    by_cases hsk : isSkippedC c = true
    · have hnp : isPassedC c = false := by simp [isPassedC, hsk]
      have hnf : isFailedC c = false := by simp [isFailedC, hsk]
      rw [if_pos hsk, if_neg (by simp only [Bool.not_eq_true]; exact hnp)]
      have hfo : failedOf fname [(p, c)] = [] := by simp [failedOf, hnf]
      rw [hfo]
      simp only [List.length_cons, List.length_nil, List.length_append]
      omega
    · have hsk' : isSkippedC c = false := by simp at hsk; exact hsk
      by_cases hfl : hasFailureC c = true
      · have hif : isFailedC c = true := by simp [isFailedC, hsk', hfl]
        have hnp : isPassedC c = false := by simp [isPassedC, hfl]
        rw [if_neg (by simp only [Bool.not_eq_true]; exact hnp), if_neg (by simp only [Bool.not_eq_true]; exact hsk')]
        have hfo : (failedOf fname [(p, c)]).length = 1 := by
          have h1 := hf (p, c) (List.mem_cons_self _ _) hif
          simp only [failedOf, List.flatMap_cons, List.flatMap_nil, List.append_nil,
            if_pos hif, List.length_map]
          exact h1
        simp only [List.length_cons, List.length_nil, List.length_append]
        omega
      · have hfl' : hasFailureC c = false := by simp at hfl; exact hfl
        have hip : isPassedC c = true := by simp [isPassedC, hsk', hfl']
        have hnf : isFailedC c = false := by simp [isFailedC, hfl']
        rw [if_pos hip, if_neg (by simp only [Bool.not_eq_true]; exact hsk')]
        have hfo : failedOf fname [(p, c)] = [] := by simp [failedOf, hnf]
        rw [hfo]
        simp only [List.length_cons, List.length_nil, List.length_append]
        omega

theorem mem_filter_map_sub {α β : Type} (f : α → β) (p : α → Bool) (l : List α)
    {b : β} (h : b ∈ (l.filter p).map f) : b ∈ l.map f := by
  simp only [List.mem_map] at h ⊢
  obtain ⟨a, ha, rfl⟩ := h
  exact ⟨a, List.mem_of_mem_filter ha, rfl⟩

theorem disj_filter_map {α β : Type} (f : α → β) (p q : α → Bool)
    (hpq : ∀ x, ¬(p x = true ∧ q x = true)) :
    ∀ l : List α, (l.map f).Nodup →
      ∀ b, b ∈ (l.filter p).map f → b ∈ (l.filter q).map f → False := by
  intro l
  induction l with
  | nil => simp
  | cons a t ih =>
    intro hnd b hbp hbq
    simp only [List.map_cons, List.nodup_cons] at hnd
    obtain ⟨hna, hndt⟩ := hnd
    rw [List.filter_cons] at hbp hbq
    by_cases hpa : p a = true
    · rw [if_pos hpa] at hbp
      have hqa : q a = false := by
        cases hq : q a
        · rfl
        · exact absurd ⟨hpa, hq⟩ (hpq a)
      rw [if_neg (by simp only [Bool.not_eq_true]; exact hqa)] at hbq
      simp only [List.map_cons, List.mem_cons] at hbp
      rcases hbp with rfl | hbp
      · exact hna (mem_filter_map_sub f q t hbq)
      · exact ih hndt b hbp hbq
    · rw [if_neg hpa] at hbp
      by_cases hqa : q a = true
      · rw [if_pos hqa] at hbq
        simp only [List.map_cons, List.mem_cons] at hbq
        rcases hbq with rfl | hbq
        · exact hna (mem_filter_map_sub f p t hbp)
        · exact ih hndt b hbp hbq
      · rw [if_neg hqa] at hbq
        exact ih hndt b hbp hbq

theorem failedOf_name_mem {fname : String} {l : List (String × Xml)} {ft : FailT}
    (h : ft ∈ failedOf fname l) :
    ft.1 ∈ (l.filter (fun pc => isFailedC pc.2)).map (fun pc => caseName pc.1 pc.2) := by
  simp only [failedOf, List.mem_flatMap] at h
  obtain ⟨pc, hpc, hft⟩ := h
  by_cases hif : isFailedC pc.2 = true
  · rw [if_pos hif] at hft
    simp only [List.mem_map] at hft
    obtain ⟨x, _, rfl⟩ := hft
    simp only [List.mem_map]
    exact ⟨pc, List.mem_filter.mpr ⟨hpc, hif⟩, rfl⟩
  · rw [if_neg hif] at hft
    exact absurd hft (List.not_mem_nil _)

theorem get_results_passed_perm (st : JState) :
    (get_results st).passed.Perm st.passed := List.perm_insertionSort _ _

theorem get_results_skipped_perm (st : JState) :
    (get_results st).skipped.Perm st.skipped := List.perm_insertionSort _ _

theorem get_results_failed_perm (st : JState) :
    (get_results st).failed.Perm st.failed := List.perm_insertionSort _ _

/-- C9 (amended): for every successfully parsed document whose visited
cases have k distinct names, no duplicate cases, and exactly one failure
marker child per failing case, parsing yields
`len(passed) + len(failed) + len(skipped) = k` and the three sequences
are pairwise disjoint by name. -/
theorem c9_distinct_counts (fs : List Nat → Except String Xml) (doc : List Nat)
    (fname : String) (t : Xml) (stF : JState)
    (hne : doc ≠ [])
    (hfs : fs doc = .ok t)
    (hp : parse_xml fs (some doc) fname initJState = .ok stF)
    (hnd : (caseNames (docCasesTop t)).Nodup)
    (hf1 : ∀ pc ∈ docCasesTop t, isFailedC pc.2 = true →
      (pc.2.children.filter (fun c => c.tag = "failure")).length = 1) :
    ((get_results stF).passed.length + (get_results stF).failed.length +
      (get_results stF).skipped.length = (caseNames (docCasesTop t)).length)
    ∧ (∀ nm ∈ (get_results stF).passed, nm ∉ (get_results stF).skipped)
    ∧ (∀ nm ∈ (get_results stF).passed, ∀ ft ∈ (get_results stF).failed, ft.1 ≠ nm)
    ∧ (∀ nm ∈ (get_results stF).skipped, ∀ ft ∈ (get_results stF).failed, ft.1 ≠ nm) := by
  have hpt : parse_tree t fname initJState = .ok stF := by
    rw [← hp]
    simp [parse_xml, truthyB, List.isEmpty_iff, hne, hfs]
  have hflds := parse_tree_ok hpt
  have hsk : stF.skipped = skippedOf (docCasesTop t) := by
    have := hflds.1; simpa [initJState] using this
  have hps : stF.passed = passedOf (docCasesTop t) := by
    have := hflds.2.1; simpa [initJState] using this
  have hfd : stF.failed = failedOf fname (docCasesTop t) := by
    have := hflds.2.2; simpa [initJState] using this
  have hlp : (get_results stF).passed.length = (passedOf (docCasesTop t)).length := by
    rw [(get_results_passed_perm stF).length_eq, hps]
  have hls : (get_results stF).skipped.length = (skippedOf (docCasesTop t)).length := by
    rw [(get_results_skipped_perm stF).length_eq, hsk]
  have hlf : (get_results stF).failed.length =
      (failedOf fname (docCasesTop t)).length := by
    rw [(get_results_failed_perm stF).length_eq, hfd]
  have hmp : ∀ nm, nm ∈ (get_results stF).passed ↔ nm ∈ passedOf (docCasesTop t) := by
    intro nm
    rw [(get_results_passed_perm stF).mem_iff, hps]
  have hms : ∀ nm, nm ∈ (get_results stF).skipped ↔ nm ∈ skippedOf (docCasesTop t) := by
    intro nm
    rw [(get_results_skipped_perm stF).mem_iff, hsk]
  have hmf : ∀ ft, ft ∈ (get_results stF).failed ↔
      ft ∈ failedOf fname (docCasesTop t) := by
    intro ft
    rw [(get_results_failed_perm stF).mem_iff, hfd]
  have hnd' : (List.map (fun (pc : String × Xml) => caseName pc.1 pc.2)
      (docCasesTop t)).Nodup := hnd
  refine ⟨?_, ?_, ?_, ?_⟩
  · rw [hlp, hls, hlf]
    exact counts_eq fname (docCasesTop t) hf1
  · intro nm hnm hcontra
    have h1 : nm ∈ ((docCasesTop t).filter
        (fun pc => isPassedC pc.2)).map (fun pc => caseName pc.1 pc.2) :=
      (hmp nm).mp hnm
    have h2 : nm ∈ ((docCasesTop t).filter
        (fun pc => isSkippedC pc.2)).map (fun pc => caseName pc.1 pc.2) :=
      (hms nm).mp hcontra
    exact disj_filter_map _ _ _
      (fun x hx => by
        obtain ⟨ha, hb⟩ := hx
        simp only [isPassedC, Bool.and_eq_true, Bool.not_eq_true'] at ha
        rw [ha.1] at hb
        exact Bool.false_ne_true hb)
      (docCasesTop t) hnd' nm h1 h2
  · intro nm hnm ft hft hcontra
    have hf2 := failedOf_name_mem ((hmf ft).mp hft)
    rw [hcontra] at hf2
    have h1 : nm ∈ ((docCasesTop t).filter
        (fun pc => isPassedC pc.2)).map (fun pc => caseName pc.1 pc.2) :=
      (hmp nm).mp hnm
    exact disj_filter_map _ _ _
      (fun x hx => by
        obtain ⟨ha, hb⟩ := hx
        simp only [isPassedC, Bool.and_eq_true, Bool.not_eq_true'] at ha
        simp only [isFailedC, Bool.and_eq_true, Bool.not_eq_true'] at hb
        rw [ha.2] at hb
        exact Bool.false_ne_true hb.2)
      (docCasesTop t) hnd' nm h1 hf2
  · intro nm hnm ft hft hcontra
    have hf2 := failedOf_name_mem ((hmf ft).mp hft)
    rw [hcontra] at hf2
    have h1 : nm ∈ ((docCasesTop t).filter
        (fun pc => isSkippedC pc.2)).map (fun pc => caseName pc.1 pc.2) :=
      (hms nm).mp hnm
    exact disj_filter_map _ _ _
      (fun x hx => by
        obtain ⟨ha, hb⟩ := hx
        simp only [isFailedC, Bool.and_eq_true, Bool.not_eq_true'] at hb
        rw [hb.1] at ha
        exact Bool.false_ne_true ha)
      (docCasesTop t) hnd' nm h1 hf2

theorem c9_docCases_twoFail :
    docCasesTop xmlTwoFail =
      [("", Xml.elem "testcase" [("name", "t"), ("time", "1.5")] none
        [Xml.elem "failure" [] (some "boom") [],
         Xml.elem "failure" [] (some "bam") []])] := by
  simp [docCasesTop, docCases, xmlTwoFail, Xml.tag, Xml.attrib, Xml.children,
    prefixFromAttrs, List.lookup]

/-- C9 counterexample: a single testcase with two `failure` children is
one case with one distinct name (k = 1), yet parsing yields two failed
tuples, so `len(passed)+len(failed)+len(skipped) = 2 ≠ k`. -/
theorem c9_cex :
    parse_xml fsTwoFail (some [60]) "f.xml" initJState =
      .ok ⟨[], [], [("t", 3/2, some "boom", "f.xml", ""),
                    ("t", 3/2, some "bam", "f.xml", "")]⟩
    ∧ (caseNames (docCasesTop xmlTwoFail)).Nodup
    ∧ (caseNames (docCasesTop xmlTwoFail)).length = 1
    ∧ (get_results ⟨[], [], [("t", 3/2, some "boom", "f.xml", ""),
                    ("t", 3/2, some "bam", "f.xml", "")]⟩).passed.length
      + (get_results ⟨[], [], [("t", 3/2, some "boom", "f.xml", ""),
                    ("t", 3/2, some "bam", "f.xml", "")]⟩).failed.length
      + (get_results ⟨[], [], [("t", 3/2, some "boom", "f.xml", ""),
                    ("t", 3/2, some "bam", "f.xml", "")]⟩).skipped.length = 2 := by
  refine ⟨?_, ?_, ?_, ?_⟩
  · simp [parse_xml, truthyB, fsTwoFail, xmlTwoFail, parse_tree, handle_suite, walk,
      handle_test, Xml.tag, Xml.attrib, Xml.children, List.lookup, initJState,
      pyFloat?, joinTexts, Xml.text, digitsVal]
    norm_num
  · rw [c9_docCases_twoFail]
    simp [caseNames]
  · rw [c9_docCases_twoFail]
    simp [caseNames]
  · simp [get_results, List.insertionSort, List.orderedInsert]
    split <;> rfl

theorem c9_parse_onePass :
    parse_xml fsOnePass (some [60]) "f.xml" initJState = .ok ⟨[], ["t"], []⟩ := by
  simp [parse_xml, truthyB, fsOnePass, xmlOnePass, parse_tree, handle_suite, walk,
    handle_test, Xml.tag, Xml.attrib, Xml.children, List.lookup, initJState]

theorem c9_docCases_onePass :
    docCasesTop xmlOnePass = [("", Xml.elem "testcase" [("name", "t")] none [])] := by
  simp [docCasesTop, docCases, xmlOnePass, Xml.tag, Xml.attrib, Xml.children,
    prefixFromAttrs, List.lookup]

theorem c9_distinct_counts_witness :
    parse_xml fsOnePass (some [60]) "f.xml" initJState = .ok ⟨[], ["t"], []⟩
    ∧ (get_results ⟨[], ["t"], []⟩).passed.length
      + (get_results ⟨[], ["t"], []⟩).failed.length
      + (get_results ⟨[], ["t"], []⟩).skipped.length =
        (caseNames (docCasesTop xmlOnePass)).length := by
  refine ⟨c9_parse_onePass, ?_⟩
  refine (c9_distinct_counts fsOnePass [60] "f.xml" xmlOnePass ⟨[], ["t"], []⟩
    (by decide) rfl c9_parse_onePass ?_ ?_).1
  · rw [c9_docCases_onePass]
    simp [caseNames]
  · rw [c9_docCases_onePass]
    intro pc hpc hif
    simp only [List.mem_singleton] at hpc
    subst hpc
    simp [isFailedC, hasFailureC, Xml.children] at hif

/-- C8 counterexample: a case inside a suite named `i` nested inside a
suite named `o` is recorded as `"i t"`, not `"o i t"` — the outer
suite's name is not part of the prefix, so prefixes do not compose. -/
theorem c8_cex :
    parse_xml fsNested (some [60]) "f.xml" initJState = .ok ⟨[], ["i t"], []⟩
    ∧ ("i t" : String) ≠ "o i t" := by
  constructor
  · simp [parse_xml, truthyB, fsNested, xmlNested, parse_tree, handle_suite, walk,
      handle_test, Xml.tag, Xml.attrib, Xml.children, List.lookup, initJState]
    rfl
  · decide

/-- C8 (amended): a case's name is prefixed by its immediately
enclosing suite's name attribute only (with a trailing separator when
present); recursion into a nested suite proceeds under the inner suite's
own attributes, discarding the outer prefix, so prefixes do not
compose. -/
theorem c8_immediate_only (fname : String) (pa ia cattrs : List (String × String))
    (it ct : Option String) (ics ccs rest : List Xml) (st : JState) (n m : String) :
    (walk fname pa (Xml.elem "testsuite" ia it ics :: rest) st =
      match walk fname ia ics st with
      | .ok st1 => walk fname pa rest st1
      | .error e => .error e)
    ∧ (List.lookup "name" pa = some n →
      List.lookup "name" cattrs = some m →
      ccs.find? (fun c => c.tag = "skipped") = none →
      ccs.find? (fun c => c.tag = "failure") = none →
      walk fname pa (Xml.elem "testcase" cattrs ct ccs :: rest) st =
        walk fname pa rest { st with passed := st.passed ++ [(n ++ " ") ++ m] }) := by
  constructor
  · simp [walk]
  · intro h1 h2 h3 h4
    have hht : handle_test (Xml.elem "testcase" cattrs ct ccs) fname
        (n ++ " ") st = .ok { st with passed := st.passed ++ [(n ++ " ") ++ m] } := by
      rw [handle_test]
      simp only [Xml.attrib, Xml.children, h2, h3, h4, Option.isSome_none]
      simp
    simp [walk, h1, hht]

/-- Witness for the amended C8 at a concrete named suite and case. -/
theorem c8_immediate_only_witness :
    walk "f.xml" [("name", "s")]
        [Xml.elem "testcase" [("name", "t")] none []] initJState =
      walk "f.xml" [("name", "s")] []
        { initJState with passed := initJState.passed ++ [("s" ++ " ") ++ "t"] } :=
  (c8_immediate_only "f.xml" [("name", "s")] [] [("name", "t")] none none [] [] []
    initJState "s" "t").2 rfl rfl rfl rfl
